import Mathlib

/-!
Verification of the JaavisCLI core (jaavis_core.py) against its design
specification.  Strings from the Python source are modelled as `List Char`
so that character-level operations (`str.replace`, `str.strip`, regex
scanning) can be embedded faithfully and executed.
-/

namespace Jaavis

/-- Python strings are modelled as lists of characters. -/
abbrev Str := List Char

/-- The whitespace class used by Python's `str.strip()` and by `\s` in the
regular expressions of the source (ASCII subset). -/
def isPySpace (c : Char) : Bool :=
  c == ' ' || c == '\t' || c == '\n' || c == '\r' ||
  c == Char.ofNat 11 || c == Char.ofNat 12

/-- Python `str.strip()`: drop leading and trailing whitespace. -/
def pyStrip (s : Str) : Str :=
  ((s.dropWhile isPySpace).reverse.dropWhile isPySpace).reverse

/-- Python `sub in s` (substring containment test). -/
def containsSub (pat : Str) : Str → Bool
  | [] => pat.isPrefixOf []
  | c :: cs => pat.isPrefixOf (c :: cs) || containsSub pat cs

/-- Python `str.replace(pat, rep)`: non-overlapping, leftmost-first
replacement of every occurrence of `pat` by `rep` (for non-empty `pat`,
as in all call sites of the source). -/
def replaceAll (pat rep : Str) : Str → Str
  | [] => []
  | c :: cs =>
    if pat ≠ [] ∧ pat.isPrefixOf (c :: cs) then
      rep ++ replaceAll pat rep ((c :: cs).drop pat.length)
    else
      c :: replaceAll pat rep cs
termination_by s => s.length
decreasing_by
  · simp only [List.length_drop, List.length_cons]
    have hp : pat.length ≥ 1 := by
      cases pat with
      | nil => exact absurd rfl (by tauto)
      | cons a as => simp
    omega
  · simp

/-- The `{{key}}` placeholder form used by `apply_skill`
(`f"{\x7b{\x7bkey}\x7d}\x7d"` in the source). -/
def placeholder (k : Str) : Str := '{' :: '{' :: (k ++ ['}', '}'])

/-- The placeholder-substitution loop of `apply_skill`
(src/jaavis_core.py lines 2330-2332): for each `(key, val)` of the
context, replace every occurrence of `{{key}}` by `val`. -/
def substContext (ctx : List (Str × Str)) (s : Str) : Str :=
  ctx.foldl (fun acc kv => replaceAll (placeholder kv.1) kv.2 acc) s

lemma replaceAll_no_occurrence {pat rep : Str} :
    ∀ {s : Str}, ¬ (pat <:+: s) → replaceAll pat rep s = s := by
  intro s
  induction s with
  | nil => intro _; rw [replaceAll]
  | cons c cs ih =>
    intro h
    rw [replaceAll]
    have hnp : ¬ (pat ≠ [] ∧ pat.isPrefixOf (c :: cs)) := by
      rintro ⟨-, hpre⟩
      exact h ((List.isPrefixOf_iff_prefix.mp hpre).isInfix
        )
    rw [if_neg hnp]
    have htail : ¬ (pat <:+: cs) := fun hc => h (hc.trans (List.suffix_cons c cs).isInfix)
    rw [ih htail]

lemma placeholder_ne_nil (k : Str) : placeholder k ≠ [] := by
  simp [placeholder]

/-- C9: substitution leaves a placeholder-free string unchanged. -/
theorem substContext_id_of_no_placeholder (ctx : List (Str × Str)) :
    ∀ {s : Str}, (∀ t : Str, ¬ (placeholder t <:+: s)) → substContext ctx s = s := by
  induction ctx with
  | nil => intro s _; rfl
  | cons kv rest ih =>
    intro s h
    show substContext rest (replaceAll (placeholder kv.1) kv.2 s) = s
    rw [replaceAll_no_occurrence (h kv.1)]
    exact ih h

/-- A string containing no `'{'` has no `{{...}}` occurrence. -/
lemma no_placeholder_of_no_brace {s : Str} (h : '{' ∉ s) :
    ∀ t : Str, ¬ (placeholder t <:+: s) := by
  intro t hin
  apply h
  exact hin.subset (by simp [placeholder])

/-!
## DocumentModel: executable-block extraction

`apply_skill` (src/jaavis_core.py lines 2314-2317) and `deploy_project`
(lines 2081-2082) extract executable blocks with
`re.findall(r'<!--\s*JAAVIS:EXEC\s*-->\s*` ++ "```" ++ `bash\n(.*?)\n` ++ "```" ++ `', content, re.DOTALL)`.
The scanner below embeds exactly that regex: `re.findall` scans
left-to-right for the leftmost match, the `\s*` gaps are deterministic
(each is followed by a non-whitespace literal), and the lazy group
`(.*?)` captures up to the first following newline-fence.
-/

/-- `"<!--"` — the opening of the marker comment. -/
def litOpen : Str := ['<', '!', '-', '-']

/-- `"JAAVIS:EXEC"` — the marker keyword. -/
def litJaavis : Str := ['J', 'A', 'A', 'V', 'I', 'S', ':', 'E', 'X', 'E', 'C']

/-- `"-->"` — the closing of the marker comment. -/
def litArrow : Str := ['-', '-', '>']

/-- The opening fence literal of the regex (backticks then `bash` then a
newline). -/
def litFence : Str := ['`', '`', '`', 'b', 'a', 's', 'h', '\n']

/-- The terminator sought by the lazy group: a newline followed by a
closing fence. -/
def litStop : Str := ['\n', '`', '`', '`']

/-- Match a literal at the head of the input, returning the rest. -/
def dropLit (pat s : Str) : Option Str :=
  if pat.isPrefixOf s then some (s.drop pat.length) else none

/-- Consume the (deterministic) `\s*` gaps of the regex. -/
def dropWs (s : Str) : Str := s.dropWhile isPySpace

/-- Split at the first occurrence of the `"\n```"` terminator: returns the
lazily-captured body and the text after the terminator. -/
def findStop : Str → Option (Str × Str)
  | [] => none
  | c :: cs =>
    if litStop.isPrefixOf (c :: cs) then some ([], (c :: cs).drop 4)
    else
      match findStop cs with
      | some (b, r) => some (c :: b, r)
      | none => none

/-- Attempt the full regex match at the current position: marker comment,
whitespace gaps, opening fence, then the lazy body up to the first
newline-fence.  Returns the captured body and the input after the match. -/
def tryMatch (s : Str) : Option (Str × Str) :=
  (dropLit litOpen s).bind fun s1 =>
    (dropLit litJaavis (dropWs s1)).bind fun s3 =>
      (dropLit litArrow (dropWs s3)).bind fun s5 =>
        (dropLit litFence (dropWs s5)).bind fun s7 =>
          findStop s7

lemma dropLit_length {pat s t : Str} (h : dropLit pat s = some t) :
    t.length ≤ s.length := by
  unfold dropLit at h
  split at h
  · cases h; simp
  · cases h

lemma dropWs_length (s : Str) : (dropWs s).length ≤ s.length := by
  induction s with
  | nil => simp [dropWs]
  | cons c cs ih =>
    by_cases h : isPySpace c
    · simp only [dropWs, List.dropWhile_cons, h, if_true] at *
      exact Nat.le_succ_of_le ih
    · simp [dropWs, List.dropWhile_cons, h]

lemma findStop_length : ∀ {s b r : Str}, findStop s = some (b, r) →
    r.length < s.length := by
  intro s
  induction s with
  | nil => intro b r h; cases h
  | cons c cs ih =>
    intro b r h
    rw [findStop] at h
    split at h
    · cases h
      simp only [List.drop_succ_cons, List.length_cons]
      have := List.length_drop 3 cs
      omega
    · revert h
      split
      · next b' r' heq =>
        intro h
        cases h
        have := ih heq
        simp only [List.length_cons]
        omega
      · intro h; cases h

lemma tryMatch_length {s b r : Str} (h : tryMatch s = some (b, r)) :
    r.length < s.length := by
  unfold tryMatch at h
  cases h1 : dropLit litOpen s with
  | none => rw [h1] at h; simp at h
  | some s1 =>
    rw [h1] at h; simp only [Option.some_bind] at h
    cases h3 : dropLit litJaavis (dropWs s1) with
    | none => rw [h3] at h; simp at h
    | some s3 =>
      rw [h3] at h; simp only [Option.some_bind] at h
      cases h5 : dropLit litArrow (dropWs s3) with
      | none => rw [h5] at h; simp at h
      | some s5 =>
        rw [h5] at h; simp only [Option.some_bind] at h
        cases h7 : dropLit litFence (dropWs s5) with
        | none => rw [h7] at h; simp at h
        | some s7 =>
          rw [h7] at h; simp only [Option.some_bind] at h
          have hr := findStop_length h
          have l7 := dropLit_length h7
          have l5 := dropLit_length h5
          have l3 := dropLit_length h3
          have w1 := dropWs_length s1
          have w3 := dropWs_length s3
          have w5 := dropWs_length s5
          have l1' : s1.length < s.length := by
            unfold dropLit at h1
            split at h1
            · cases h1
              simp only [List.length_drop]
              next hp =>
              have : litOpen.length ≤ s.length :=
                (List.isPrefixOf_iff_prefix.mp hp).length_le
              simp [litOpen] at this ⊢
              omega
            · cases h1
          omega

/-- The executable-block scanner (fuel-indexed; the fuel is always
instantiated with the input length, which suffices since every step of
`re.findall` strictly advances). -/
def extractAux : Nat → Str → List Str
  | 0, _ => []
  | _ + 1, [] => []
  | fuel + 1, c :: cs =>
    match tryMatch (c :: cs) with
    | some (b, r) => b :: extractAux fuel r
    | none => extractAux fuel cs

/-- `extractExecutableBlocks`: all bodies matched by the regex, in source
order. -/
def extractBlocks (s : Str) : List Str := extractAux s.length s

lemma extractAux_congr : ∀ (f1 f2 : Nat) (s : Str), s.length ≤ f1 →
    s.length ≤ f2 → extractAux f1 s = extractAux f2 s := by
  intro f1
  induction f1 with
  | zero =>
    intro f2 s h1 _
    have : s = [] := List.length_eq_zero.mp (Nat.le_zero.mp h1)
    subst this
    cases f2 <;> rfl
  | succ f1' ih =>
    intro f2 s h1 h2
    cases s with
    | nil => cases f2 <;> rfl
    | cons c cs =>
      cases f2 with
      | zero => simp at h2
      | succ f2' =>
        rw [extractAux, extractAux]
        cases hm : tryMatch (c :: cs) with
        | some br =>
          obtain ⟨b, r⟩ := br
          have hr := tryMatch_length hm
          simp only [List.length_cons] at h1 h2 hr
          show b :: extractAux f1' r = b :: extractAux f2' r
          rw [ih f2' r (by omega) (by omega)]
        | none =>
          simp only [List.length_cons] at h1 h2
          exact ih f2' cs (by omega) (by omega)

/-- One marker-plus-fenced-block section, exactly as the skill document
format prescribes (spec §6): the marker comment, a newline, the opening
`bash` fence, the body, a newline and the closing fence. -/
def litMarkerFull : Str :=
  ['<', '!', '-', '-', ' ', 'J', 'A', 'A', 'V', 'I', 'S', ':', 'E', 'X',
   'E', 'C', ' ', '-', '-', '>', '\n', '`', '`', '`', 'b', 'a', 's', 'h', '\n']

/-- Everything of `litMarkerFull` after its leading angle bracket. -/
def litMarkerTail : Str :=
  ['!', '-', '-', ' ', 'J', 'A', 'A', 'V', 'I', 'S', ':', 'E', 'X',
   'E', 'C', ' ', '-', '-', '>', '\n', '`', '`', '`', 'b', 'a', 's', 'h', '\n']

/-- A marked executable section with body `b`. -/
def blockStr (b : Str) : Str := litMarkerFull ++ b ++ litStop

/-- `true` iff the fence terminator `"\n```"` occurs somewhere in `s`. -/
def hasStop : Str → Bool
  | [] => false
  | c :: cs => litStop.isPrefixOf (c :: cs) || hasStop cs

/-- A document assembled from separator/body pairs followed by a final
suffix: `sep₁ ⧺ block b₁ ⧺ sep₂ ⧺ block b₂ ⧺ ⋯ ⧺ suffix`. -/
def mkDoc : List (Str × Str) → Str → Str
  | [], suffix => suffix
  | (p, b) :: rest, suffix => p ++ (blockStr b ++ mkDoc rest suffix)

lemma tryMatch_none_of_head_ne {c : Char} (h : c ≠ '<') (cs : Str) :
    tryMatch (c :: cs) = none := by
  have : dropLit litOpen (c :: cs) = none := by
    unfold dropLit
    rw [if_neg]
    intro hp
    rw [litOpen, List.isPrefixOf] at hp
    simp only [Bool.and_eq_true, beq_iff_eq] at hp
    exact h hp.1.symm
  unfold tryMatch
  rw [this]
  rfl

lemma obind_some {α β : Type} (a : α) (f : α → Option β) :
    (some a).bind f = f a := rfl

lemma dropLit_self (pat t : Str) : dropLit pat (pat ++ t) = some t := by
  unfold dropLit
  rw [if_pos (List.isPrefixOf_iff_prefix.mpr (List.prefix_append pat t))]
  rw [List.drop_left]

lemma dropWs_cons (c : Char) (s : Str) :
    dropWs (c :: s) = if isPySpace c = true then dropWs s else c :: s := by
  simp [dropWs, List.dropWhile_cons]

lemma dropWs_jaavis (t : Str) : dropWs (litJaavis ++ t) = litJaavis ++ t := by
  show dropWs ('J' :: (['A', 'A', 'V', 'I', 'S', ':', 'E', 'X', 'E', 'C'] ++ t)) = _
  rw [dropWs_cons, if_neg (by decide)]
  simp [litJaavis]

lemma dropWs_arrow (t : Str) : dropWs (litArrow ++ t) = litArrow ++ t := by
  show dropWs ('-' :: (['-', '>'] ++ t)) = _
  rw [dropWs_cons, if_neg (by decide)]
  simp [litArrow]

lemma dropWs_fence (t : Str) : dropWs (litFence ++ t) = litFence ++ t := by
  show dropWs ('`' :: (['`', '`', 'b', 'a', 's', 'h', '\n'] ++ t)) = _
  rw [dropWs_cons, if_neg (by decide)]
  simp [litFence]

lemma tryMatch_marker (t : Str) :
    tryMatch (litMarkerFull ++ t) = findStop t := by
  have e : litMarkerFull ++ t
      = litOpen ++ (' ' :: (litJaavis ++ (' ' :: (litArrow
          ++ ('\n' :: (litFence ++ t)))))) := by
    simp [litMarkerFull, litOpen, litJaavis, litArrow, litFence]
  unfold tryMatch
  rw [e, dropLit_self, obind_some]
  rw [dropWs_cons, if_pos (by decide), dropWs_jaavis, dropLit_self, obind_some]
  rw [dropWs_cons, if_pos (by decide), dropWs_arrow, dropLit_self, obind_some]
  rw [dropWs_cons, if_pos (by decide), dropWs_fence, dropLit_self, obind_some]

lemma stop_not_isPrefixOf_extend {c : Char} {b' t : Str}
    (h : litStop.isPrefixOf (c :: b') = false) :
    litStop.isPrefixOf (c :: (b' ++ (litStop ++ t))) = false := by
  have hq : ('`' == '\n') = false := by decide
  match b' with
  | [] =>
    show litStop.isPrefixOf (c :: '\n' :: '`' :: '`' :: '`' :: t) = false
    simp [litStop, List.isPrefixOf, hq]
  | [d] =>
    show litStop.isPrefixOf (c :: d :: '\n' :: '`' :: '`' :: '`' :: t) = false
    simp [litStop, List.isPrefixOf, hq]
  | [d, e] =>
    show litStop.isPrefixOf (c :: d :: e :: '\n' :: '`' :: '`' :: '`' :: t) = false
    simp [litStop, List.isPrefixOf, hq]
  | d :: e :: f :: tl =>
    show litStop.isPrefixOf (c :: d :: e :: f :: (tl ++ (litStop ++ t))) = false
    simp only [litStop, List.isPrefixOf, List.isPrefixOf_nil_left,
      Bool.and_true] at h ⊢
    exact h

lemma findStop_block {b : Str} (hb : hasStop b = false) (t : Str) :
    findStop (b ++ litStop ++ t) = some (b, t) := by
  induction b with
  | nil =>
    show findStop ('\n' :: '`' :: '`' :: '`' :: t) = some ([], t)
    rw [findStop]
    rw [if_pos (by simp [litStop, List.isPrefixOf])]
    simp
  | cons c b' ih =>
    rw [hasStop] at hb
    simp only [Bool.or_eq_false_iff] at hb
    obtain ⟨hb1, hb2⟩ := hb
    show findStop (c :: (b' ++ litStop ++ t)) = some (c :: b', t)
    rw [findStop]
    have hcond : litStop.isPrefixOf (c :: (b' ++ litStop ++ t)) = false := by
      rw [List.append_assoc]
      exact stop_not_isPrefixOf_extend hb1
    rw [if_neg (by rw [hcond]; simp)]
    have := ih hb2
    rw [this]

lemma tryMatch_block {b : Str} (hb : hasStop b = false) (t : Str) :
    tryMatch (blockStr b ++ t) = some (b, t) := by
  have h1 : blockStr b ++ t = litMarkerFull ++ (b ++ litStop ++ t) := by
    simp [blockStr, List.append_assoc]
  rw [h1, tryMatch_marker]
  exact findStop_block hb t

lemma extractAux_no_marker : ∀ (s : Str) (fuel : Nat),
    (∀ c ∈ s, c ≠ '<') → extractAux fuel s = [] := by
  intro s
  induction s with
  | nil => intro fuel _; cases fuel <;> rfl
  | cons c cs ih =>
    intro fuel h
    cases fuel with
    | zero => rfl
    | succ f =>
      rw [extractAux, tryMatch_none_of_head_ne (h c (by simp)) cs]
      exact ih f (fun c' hc' => h c' (by simp [hc']))

lemma extractAux_skip : ∀ (p : Str) (fuel : Nat) (s : Str),
    (∀ c ∈ p, c ≠ '<') → p.length + s.length ≤ fuel →
    extractAux fuel (p ++ s) = extractAux s.length s := by
  intro p
  induction p with
  | nil =>
    intro fuel s _ hf
    simp only [List.nil_append]
    exact extractAux_congr fuel s.length s (by simpa using hf) le_rfl
  | cons c p' ih =>
    intro fuel s h hf
    simp only [List.length_cons] at hf
    cases fuel with
    | zero => omega
    | succ f =>
      show extractAux (f + 1) (c :: (p' ++ s)) = extractAux s.length s
      rw [extractAux, tryMatch_none_of_head_ne (h c (by simp)) _]
      exact ih f s (fun c' hc' => h c' (by simp [hc'])) (by omega)

lemma extractAux_block {b : Str} (hb : hasStop b = false) :
    ∀ (fuel : Nat) (t : Str), (blockStr b ++ t).length ≤ fuel →
    extractAux fuel (blockStr b ++ t) = b :: extractAux t.length t := by
  intro fuel t hf
  have hlen : (blockStr b ++ t).length = 33 + b.length + t.length := by
    simp [blockStr, litMarkerFull, litStop]
    omega
  cases fuel with
  | zero => omega
  | succ f =>
    have hcons : blockStr b ++ t = '<' :: (litMarkerTail ++ b ++ litStop ++ t) := by
      simp [blockStr, litMarkerFull, litMarkerTail, litStop]
    rw [hcons, extractAux]
    rw [show ('<' :: (litMarkerTail ++ b ++ litStop ++ t)) = blockStr b ++ t from hcons.symm]
    rw [tryMatch_block hb t]
    show b :: extractAux f t = b :: extractAux t.length t
    rw [extractAux_congr f t.length t (by omega) le_rfl]

lemma mkDoc_length (pbs : List (Str × Str)) (suffix : Str) :
    (mkDoc pbs suffix).length =
      (pbs.map (fun pb => pb.1.length + pb.2.length + 33)).sum + suffix.length := by
  induction pbs with
  | nil => simp [mkDoc]
  | cons pb rest ih =>
    obtain ⟨p, b⟩ := pb
    simp [mkDoc, ih, blockStr, litMarkerFull, litStop]
    omega

lemma extractAux_mkDoc : ∀ (pbs : List (Str × Str)) (suffix : Str) (fuel : Nat),
    (∀ pb ∈ pbs, (∀ c ∈ pb.1, c ≠ '<') ∧ hasStop pb.2 = false) →
    (∀ c ∈ suffix, c ≠ '<') →
    (mkDoc pbs suffix).length ≤ fuel →
    extractAux fuel (mkDoc pbs suffix) = pbs.map Prod.snd := by
  intro pbs
  induction pbs with
  | nil =>
    intro suffix fuel _ hs _
    exact extractAux_no_marker suffix fuel hs
  | cons pb rest ih =>
    intro suffix fuel h hs hf
    obtain ⟨p, b⟩ := pb
    have hp : ∀ c ∈ p, c ≠ '<' := (h (p, b) (by simp)).1
    have hb : hasStop b = false := (h (p, b) (by simp)).2
    show extractAux fuel (p ++ (blockStr b ++ mkDoc rest suffix)) = b :: rest.map Prod.snd
    have hf' : p.length + (blockStr b ++ mkDoc rest suffix).length ≤ fuel := by
      have : (mkDoc ((p, b) :: rest) suffix).length =
          p.length + (blockStr b ++ mkDoc rest suffix).length := by
        simp [mkDoc]
      omega
    rw [extractAux_skip p fuel _ hp hf']
    rw [extractAux_block hb _ _ le_rfl]
    congr 1
    exact ih suffix (mkDoc rest suffix).length
      (fun pb' hpb' => h pb' (by simp [hpb'])) hs le_rfl

/-- C5: for every document built of `N` marked-and-fenced sections
(separated by marker-free text, each body free of an embedded closing
fence), `extractExecutableBlocks` returns exactly the `N` bodies in
source order, marker and fence lines stripped; `N = 0` yields `[]`. -/
theorem extractBlocks_mkDoc (pbs : List (Str × Str)) (suffix : Str)
    (h : ∀ pb ∈ pbs, (∀ c ∈ pb.1, c ≠ '<') ∧ hasStop pb.2 = false)
    (hs : ∀ c ∈ suffix, c ≠ '<') :
    extractBlocks (mkDoc pbs suffix) = pbs.map Prod.snd :=
  extractAux_mkDoc pbs suffix _ h hs le_rfl

/-- Witness for C5 at a concrete two-block document. -/
theorem extractBlocks_mkDoc_witness :
    extractBlocks (mkDoc [("Intro\n".toList, "echo hi".toList),
      ("\nmore text\n".toList, "cd app\nnpm run build".toList)] "\ntail\n".toList)
      = ["echo hi".toList, "cd app\nnpm run build".toList] :=
  extractBlocks_mkDoc _ _ (by decide) (by decide)

/-- Witness for C9 at a concrete placeholder-free string. -/
theorem substContext_id_witness :
    substContext [("name".toList, "world".toList)] "echo hello".toList
      = "echo hello".toList :=
  substContext_id_of_no_placeholder _ (no_placeholder_of_no_brace (by decide))

/-!
## DocumentModel: frontmatter parsing

`parse_frontmatter` (src/jaavis_core.py lines 2166-2200): strip the
content, require a leading `"---"`, split on `"---"` with at most two
splits, and parse the middle part.  The PyYAML-missing fallback branch
(lines 2184-2197) is the parser embedded here, as §4.1 of the spec
prescribes (scalar strings and bracketed comma lists).
-/

/-- `"---"` — the frontmatter delimiter. -/
def litDash3 : Str := ['-', '-', '-']

/-- Split at the first occurrence of `delim`, returning the text before
and after it (`none` when `delim` does not occur). -/
def splitFirst (delim : Str) : Str → Option (Str × Str)
  | [] => none
  | c :: cs =>
    if delim.isPrefixOf (c :: cs) then some ([], (c :: cs).drop delim.length)
    else
      match splitFirst delim cs with
      | some (a, r) => some (c :: a, r)
      | none => none

/-- Python `content.split(delim, 2)`: at most two splits, so one, two or
three parts. -/
def pySplit3 (delim s : Str) : List Str :=
  match splitFirst delim s with
  | none => [s]
  | some (a, r) =>
    match splitFirst delim r with
    | none => [a, r]
    | some (b, r2) => [a, b, r2]

/-- Strip every leading and trailing occurrence of one character
(Python `str.strip("'")` / `str.strip('"')`). -/
def stripChar (q : Char) (s : Str) : Str :=
  ((s.dropWhile (· == q)).reverse.dropWhile (· == q)).reverse

/-- Python `val.strip("'").strip('"')`. -/
def stripQuotes (s : Str) : Str := stripChar '"' (stripChar '\'' s)

/-- A frontmatter value: a scalar string or a bracketed comma list. -/
inductive FrontVal where
  | scalar (v : Str)
  | items (vs : List Str)
deriving DecidableEq, Repr

/-- Python `dict` update `meta[key] = val`: replace in place, else append. -/
def dictInsert (m : List (Str × FrontVal)) (k : Str) (v : FrontVal) :
    List (Str × FrontVal) :=
  if m.any (fun kv => kv.1 = k) then
    m.map (fun kv => if kv.1 = k then (k, v) else kv)
  else m ++ [(k, v)]

/-- Split a string at every occurrence of one character (Python
`str.split` on a single-character separator). -/
def splitOnChar (c : Char) : Str → List Str
  | [] => [[]]
  | x :: xs =>
    match splitOnChar c xs with
    | [] => [[]]
    | h :: t => if x = c then [] :: h :: t else (x :: h) :: t

/-- One iteration of the fallback loop (lines 2186-2196): lines without a
colon are ignored; `key` is the text before the first colon, `val` after;
bracketed values become comma lists. -/
def parseMetaLine (m : List (Str × FrontVal)) (line : Str) :
    List (Str × FrontVal) :=
  match splitFirst [':'] line with
  | none => m
  | some (k, v) =>
    let key := pyStrip k
    let val := pyStrip v
    if val.head? = some '[' ∧ val.getLast? = some ']' then
      let inner := (val.drop 1).dropLast
      dictInsert m key
        (FrontVal.items ((splitOnChar ',' inner).map (fun i => stripQuotes (pyStrip i))))
    else
      dictInsert m key (FrontVal.scalar (stripQuotes val))

/-- The native fallback parser over the frontmatter body. -/
def parseYamlNative (y : Str) : List (Str × FrontVal) :=
  (splitOnChar '\n' y).foldl parseMetaLine []

/-- `parse_frontmatter` (src/jaavis_core.py lines 2166-2200, fallback
branch): `none` models Python's `None`. -/
def parse_frontmatter (content : Str) : Option (List (Str × FrontVal)) :=
  let c := pyStrip content
  if litDash3.isPrefixOf c then
    match pySplit3 litDash3 c with
    | [_, y, _] => some (parseYamlNative (pyStrip y))
    | _ => none
  else none

/-- C6 counterexample: an input that does not begin with the three-hyphen
delimiter (it begins with a space) for which `parse_frontmatter`
nevertheless returns structured metadata, because the source strips
whitespace before testing the delimiter. -/
theorem parse_frontmatter_leading_space_counterexample :
    parse_frontmatter " ---\na: b\n---".toList
        = some [("a".toList, FrontVal.scalar "b".toList)]
      ∧ litDash3.isPrefixOf " ---\na: b\n---".toList = false := by
  constructor
  · decide
  · decide

/-- C6 (amended): after the source's `strip()` normalization, an input
whose stripped form does not begin with `"---"` yields `none`, and so
does an input whose stripped form has no closing delimiter (fewer than
three split parts); the parser is a total function (never raises). -/
theorem parse_frontmatter_null_cases (content : Str) :
    (litDash3.isPrefixOf (pyStrip content) = false →
      parse_frontmatter content = none)
    ∧ (∀ a : Str, pySplit3 litDash3 (pyStrip content) = [a] →
      parse_frontmatter content = none)
    ∧ (∀ a r : Str, pySplit3 litDash3 (pyStrip content) = [a, r] →
      parse_frontmatter content = none) := by
  refine ⟨fun h => ?_, fun a h => ?_, fun a r h => ?_⟩
  · unfold parse_frontmatter
    rw [if_neg (by rw [h]; simp)]
  · unfold parse_frontmatter
    by_cases hp : litDash3.isPrefixOf (pyStrip content) = true
    · rw [if_pos hp, h]
    · rw [if_neg (by rw [Bool.eq_false_iff.mpr hp]; simp)]
  · unfold parse_frontmatter
    by_cases hp : litDash3.isPrefixOf (pyStrip content) = true
    · rw [if_pos hp, h]
    · rw [if_neg (by rw [Bool.eq_false_iff.mpr hp]; simp)]

/-- Witness for C6 (amended): a document with no delimiter at all, and
one with an unclosed delimiter, both yield `none`. -/
theorem parse_frontmatter_null_cases_witness :
    parse_frontmatter "# just a title\nbody".toList = none
      ∧ parse_frontmatter "---\nkey: value".toList = none := by
  constructor
  · exact (parse_frontmatter_null_cases _).1 (by decide)
  · exact (parse_frontmatter_null_cases _).2.2 "".toList "\nkey: value".toList
      (by decide)

/-!
## LibraryReconciler: the per-library sync of `sync_all_personas`

`sync_all_personas` (src/jaavis_core.py lines 161-207) builds, for a
git-tracked library, a command list `stash? ; pull --rebase ; pop?` and
runs it in order.  Each external `git` invocation is modelled as one
consultation of an oracle `env : Nat → GitRes` (call index in program
order), so a run is a deterministic trace.
-/

/-- The result of one `subprocess` invocation: exit code, captured
standard output and standard error. -/
structure GitRes where
  rc : Int
  stdout : Str
  stderr : Str

/-- `["git", "stash"]` -/
def gitStash : List String := ["git", "stash"]

/-- `["git", "pull", "--rebase"]` -/
def gitPullRebase : List String := ["git", "pull", "--rebase"]

/-- `["git", "stash", "pop"]` -/
def gitStashPop : List String := ["git", "stash", "pop"]

/-- `["git", "rev-parse", "--abbrev-ref", "HEAD"]` -/
def gitRevParseHead : List String := ["git", "rev-parse", "--abbrev-ref", "HEAD"]

/-- `["git", "branch", "--set-upstream-to", "origin/<branch>", "<branch>"]` -/
def gitSetUpstream (branch : Str) : List String :=
  ["git", "branch", "--set-upstream-to", "origin/" ++ String.mk branch,
   String.mk branch]

/-- The `"no tracking information"` marker tested against stderr
(line 190). -/
def litNoTracking : Str := "no tracking information".toList

/-- The command list of lines 174-182: stash first when dirty, then
`pull --rebase`, then pop when dirty. -/
def syncCommands (pending : Nat) : List (List String) :=
  (if pending > 0 then [gitStash] else []) ++ [gitPullRebase]
    ++ (if pending > 0 then [gitStashPop] else [])

/-- The execution loop of lines 185-204.  Returns the commands actually
issued (in order, the upstream-fix invocations included) and whether the
loop finished without error.  On a failing `pull` whose stderr mentions
missing tracking information, the source consults `rev-parse` for the
current branch (falling back to `"main"` when that fails), sets the
upstream, and retries the pull exactly once; any other failure — or a
failing retry — prints the error and `break`s out of the loop. -/
def runCmds (env : Nat → GitRes) : Nat → List (List String) →
    (List (List String) × Bool)
  | _, [] => ([], true)
  | k, cmd :: rest =>
    let res := env k
    if res.rc ≠ 0 then
      if "pull" ∈ cmd ∧ containsSub litNoTracking res.stderr = true then
        let bres := env (k + 1)
        let branch := if bres.rc = 0 then pyStrip bres.stdout else "main".toList
        let res2 := env (k + 3)
        if res2.rc ≠ 0 then
          ([cmd, gitRevParseHead, gitSetUpstream branch, cmd], false)
        else
          let r := runCmds env (k + 4) rest
          (cmd :: gitRevParseHead :: gitSetUpstream branch :: cmd :: r.1, r.2)
      else ([cmd], false)
    else
      let r := runCmds env (k + 1) rest
      (cmd :: r.1, r.2)

/-- The whole git-tracked branch of one sync pass: run the stash/pull/pop
command list against the oracle. -/
def sync_git_branch (env : Nat → GitRes) (pending : Nat) :
    List (List String) × Bool :=
  runCmds env 0 (syncCommands pending)

/-- An oracle for the C1 counterexample: the stash succeeds, the pull
fails with an stderr unrelated to upstream tracking. -/
def envPullFails : Nat → GitRes := fun k =>
  if k = 0 then ⟨0, [], []⟩
  else ⟨1, [], "fatal: unable to access remote".toList⟩

/-- C1 counterexample: for a dirty library (pending = 1) whose pull
fails, the loop stops at the pull — the commands issued are exactly
`stash; pull` and `git stash pop` is never attempted, contradicting the
claim that the pop is attempted even when the pull fails. -/
theorem sync_pop_skipped_on_pull_failure :
    sync_git_branch envPullFails 1 = ([gitStash, gitPullRebase], false)
      ∧ gitStashPop ∉ (sync_git_branch envPullFails 1).1 := by
  constructor
  · decide
  · decide

/-- C1 (amended): for a dirty git-tracked library the commands are built
in the order stash → pull → pop, and the pop is attempted only when the
pull step succeeds: when the pull fails for a reason other than missing
upstream tracking, and likewise when the pull fails for missing upstream
tracking and the single upstream-fix retry fails too, the loop breaks
with the failure surfaced and the stash is left unpopped. -/
theorem sync_stash_pull_pop_protocol (env : Nat → GitRes) (pending : Nat)
    (hp : pending > 0) (hstash : (env 0).rc = 0) :
    ((env 1).rc = 0 →
      (sync_git_branch env pending).1 = [gitStash, gitPullRebase, gitStashPop])
    ∧ ((env 1).rc ≠ 0 → containsSub litNoTracking (env 1).stderr = false →
      sync_git_branch env pending = ([gitStash, gitPullRebase], false)
        ∧ gitStashPop ∉ (sync_git_branch env pending).1)
    ∧ ((env 1).rc ≠ 0 → containsSub litNoTracking (env 1).stderr = true →
        (env 4).rc ≠ 0 →
      sync_git_branch env pending
          = ([gitStash, gitPullRebase, gitRevParseHead,
              gitSetUpstream (if (env 2).rc = 0 then pyStrip (env 2).stdout
                else "main".toList), gitPullRebase], false)
        ∧ gitStashPop ∉ (sync_git_branch env pending).1) := by
  have hcmds : syncCommands pending = [gitStash, gitPullRebase, gitStashPop] := by
    unfold syncCommands
    rw [if_pos hp, if_pos hp]
    rfl
  refine ⟨?_, ?_, ?_⟩
  · intro hpull
    unfold sync_git_branch
    rw [hcmds]
    rw [runCmds, if_neg (by simp [hstash])]
    rw [runCmds, if_neg (by simp [hpull])]
    rw [runCmds]
    by_cases hpop : (env 2).rc ≠ 0
    · rw [if_pos hpop]
      rw [if_neg (by simp [gitStashPop])]
    · rw [if_neg hpop]
      rfl
  · intro hpull hnt
    have heq : sync_git_branch env pending = ([gitStash, gitPullRebase], false) := by
      unfold sync_git_branch
      rw [hcmds]
      rw [runCmds, if_neg (by simp [hstash])]
      rw [runCmds, if_pos hpull]
      rw [if_neg (by simp [hnt])]
    refine ⟨heq, ?_⟩
    rw [heq]
    simp [gitStashPop, gitStash, gitPullRebase]
  · intro hpull hnt h4
    have heq : sync_git_branch env pending
        = ([gitStash, gitPullRebase, gitRevParseHead,
            gitSetUpstream (if (env 2).rc = 0 then pyStrip (env 2).stdout
              else "main".toList), gitPullRebase], false) := by
      unfold sync_git_branch
      rw [hcmds]
      rw [runCmds, if_neg (by simp [hstash])]
      rw [runCmds, if_pos hpull, if_pos ⟨by simp [gitPullRebase], hnt⟩,
        if_pos h4]
    refine ⟨heq, ?_⟩
    rw [heq]
    simp only [List.mem_cons, List.not_mem_nil, or_false]
    push_neg
    refine ⟨by simp [gitStashPop, gitStash], by simp [gitStashPop, gitPullRebase],
      by simp [gitStashPop, gitRevParseHead], ?_, by simp [gitStashPop, gitPullRebase]⟩
    intro h
    have := congrArg List.length h
    simp [gitStashPop, gitSetUpstream] at this

/-- An oracle for the dirty upstream-retry-failure case of C1: the stash
succeeds, the pull fails for lack of tracking information, the branch
probe reports `main`, and the retried pull fails as well. -/
def envDirtyNoUpstream : Nat → GitRes := fun k =>
  if k = 0 then ⟨0, [], []⟩
  else if k = 1 then
    ⟨1, [], "There is no tracking information for the current branch.".toList⟩
  else if k = 2 then ⟨0, "main\n".toList, []⟩
  else ⟨1, [], "fatal: couldn't find remote ref".toList⟩

/-- Witness for C1 (amended) at two concrete oracles: a pull that fails
outright, and a dirty no-upstream pull whose retry fails — the stash pop
is absent from both traces. -/
theorem sync_stash_pull_pop_protocol_witness :
    (sync_git_branch envPullFails 1 = ([gitStash, gitPullRebase], false)
      ∧ gitStashPop ∉ (sync_git_branch envPullFails 1).1)
    ∧ (sync_git_branch envDirtyNoUpstream 1
        = ([gitStash, gitPullRebase, gitRevParseHead,
            gitSetUpstream "main".toList, gitPullRebase], false)
      ∧ gitStashPop ∉ (sync_git_branch envDirtyNoUpstream 1).1) := by
  constructor
  · exact (sync_stash_pull_pop_protocol envPullFails 1 (by decide)
      (by decide)).2.1 (by decide) (by decide)
  · have h := (sync_stash_pull_pop_protocol envDirtyNoUpstream 1 (by decide)
      (by decide)).2.2 (by decide) (by decide) (by decide)
    refine ⟨?_, h.2⟩
    rw [h.1]
    rfl

lemma setUpstream_ne_pullRebase (b : Str) :
    (gitSetUpstream b == gitPullRebase) = false := by
  rw [beq_eq_false_iff_ne]
  intro h
  have := congrArg List.length h
  simp [gitSetUpstream, gitPullRebase] at this

lemma revParse_ne_pullRebase : (gitRevParseHead == gitPullRebase) = false := by
  decide

/-- C7: when the pull fails for lack of upstream tracking, the loop sets
the upstream to the branch detected by `rev-parse` (falling back to
`"main"`) and retries the pull exactly once — the issued trace contains
exactly two pull invocations; if the retry fails too, the run stops with
the failure surfaced (`false`), and if it succeeds the loop continues
normally. -/
theorem sync_upstream_single_retry (env : Nat → GitRes)
    (h0 : (env 0).rc ≠ 0)
    (hnt : containsSub litNoTracking (env 0).stderr = true) :
    ((env 3).rc ≠ 0 →
      sync_git_branch env 0
        = ([gitPullRebase, gitRevParseHead,
            gitSetUpstream (if (env 1).rc = 0 then pyStrip (env 1).stdout
              else "main".toList), gitPullRebase], false))
    ∧ ((env 3).rc = 0 →
      sync_git_branch env 0
        = ([gitPullRebase, gitRevParseHead,
            gitSetUpstream (if (env 1).rc = 0 then pyStrip (env 1).stdout
              else "main".toList), gitPullRebase], true))
    ∧ (sync_git_branch env 0).1.count gitPullRebase = 2 := by
  have hcmds : syncCommands 0 = [gitPullRebase] := by
    unfold syncCommands
    rw [if_neg (by omega), if_neg (by omega)]
    rfl
  have hcount : ∀ b : Str,
      ([gitPullRebase, gitRevParseHead, gitSetUpstream b,
        gitPullRebase] : List (List String)).count gitPullRebase = 2 := by
    intro b
    simp [List.count_cons, setUpstream_ne_pullRebase, revParse_ne_pullRebase,
      List.count_nil]
  by_cases h3 : (env 3).rc ≠ 0
  · have heq : sync_git_branch env 0
        = ([gitPullRebase, gitRevParseHead,
            gitSetUpstream (if (env 1).rc = 0 then pyStrip (env 1).stdout
              else "main".toList), gitPullRebase], false) := by
      unfold sync_git_branch
      rw [hcmds]
      rw [runCmds, if_pos h0, if_pos ⟨by simp [gitPullRebase], hnt⟩, if_pos h3]
    refine ⟨fun _ => heq, fun hc => absurd hc h3, ?_⟩
    rw [heq]
    exact hcount _
  · push_neg at h3
    have heq : sync_git_branch env 0
        = ([gitPullRebase, gitRevParseHead,
            gitSetUpstream (if (env 1).rc = 0 then pyStrip (env 1).stdout
              else "main".toList), gitPullRebase], true) := by
      unfold sync_git_branch
      rw [hcmds]
      rw [runCmds, if_pos h0, if_pos ⟨by simp [gitPullRebase], hnt⟩,
        if_neg (by simp [h3])]
      rfl
    refine ⟨fun hc => absurd h3 hc, fun _ => heq, ?_⟩
    rw [heq]
    exact hcount _

/-- An oracle for the C7 witness: the pull fails with a "no tracking
information" stderr, the branch probe reports `feature`, and the retried
pull fails as well. -/
def envNoUpstream : Nat → GitRes := fun k =>
  if k = 0 then
    ⟨1, [], "There is no tracking information for the current branch.".toList⟩
  else if k = 1 then ⟨0, "feature\n".toList, []⟩
  else ⟨1, [], "fatal: couldn't find remote ref".toList⟩

/-- Witness for C7 at the concrete no-upstream oracle: upstream is set to
the detected `feature` branch, the pull is retried exactly once, and the
failing retry is surfaced. -/
theorem sync_upstream_single_retry_witness :
    sync_git_branch envNoUpstream 0
        = ([gitPullRebase, gitRevParseHead, gitSetUpstream "feature".toList,
            gitPullRebase], false)
      ∧ (sync_git_branch envNoUpstream 0).1.count gitPullRebase = 2 := by
  have h := sync_upstream_single_retry envNoUpstream (by decide) (by decide)
  refine ⟨?_, h.2.2⟩
  have := h.1 (by decide)
  rw [this]
  rfl

/-!
## ExecutionEngine: the block-execution loop of `apply_skill`

`apply_skill` (src/jaavis_core.py lines 2326-2368) iterates over the
extracted blocks (numbered from 1).  Operator answers are an oracle
`ops : Nat → String` (one entry per `Prompt.ask`, in order) and process
exits are an oracle `env : Nat → Int` (one entry per launched script).
The trace records the prompts issued (with their offered choices) and
the scripts launched.
-/

/-- One observable event of an `apply_skill` run. -/
inductive AEvent where
  | asked (question : String) (choices : List String) (answer : String)
  | ranBlock (i : Nat) (script : Str)
  | dryRunSkipped (i : Nat)
  | userSkipped (i : Nat)
deriving DecidableEq, Repr

/-- The execution loop: per block, strip and substitute, honour dry-run,
ask for confirmation, launch, and on a non-zero exit ask the single
binary "Continue anyway?" question — `"n"` breaks out of the loop,
anything else advances to the next block.  (Lines 2326-2368.) -/
def applyLoop (ops : Nat → String) (env : Nat → Int) (dry : Bool)
    (ctx : List (Str × Str)) : Nat → Nat → Nat → List Str → List AEvent
  | _, _, _, [] => []
  | oi, pr, i, m :: rest =>
    let cmd := substContext ctx (pyStrip m)
    if dry then
      AEvent.dryRunSkipped i :: applyLoop ops env dry ctx oi pr (i + 1) rest
    else if ops oi = "y" then
      if env pr = 0 then
        AEvent.asked "Execute this block?" ["y", "n"] (ops oi)
          :: AEvent.ranBlock i cmd
          :: applyLoop ops env dry ctx (oi + 1) (pr + 1) (i + 1) rest
      else
        AEvent.asked "Execute this block?" ["y", "n"] (ops oi)
          :: AEvent.ranBlock i cmd
          :: AEvent.asked "Continue anyway?" ["y", "n"] (ops (oi + 1))
          :: (if ops (oi + 1) = "n" then []
              else applyLoop ops env dry ctx (oi + 2) (pr + 1) (i + 1) rest)
    else
      AEvent.asked "Execute this block?" ["y", "n"] (ops oi)
        :: AEvent.userSkipped i
        :: applyLoop ops env dry ctx (oi + 1) pr (i + 1) rest

/-- How many times block number `j` was launched in a trace. -/
def countRan (j : Nat) (evs : List AEvent) : Nat :=
  evs.countP fun e =>
    match e with
    | AEvent.ranBlock k _ => k == j
    | _ => false

lemma countRan_lt_idx : ∀ (ms : List Str) (ops : Nat → String)
    (env : Nat → Int) (dry : Bool) (ctx : List (Str × Str))
    (oi pr i j : Nat), j < i →
    countRan j (applyLoop ops env dry ctx oi pr i ms) = 0 := by
  intro ms
  induction ms with
  | nil => intro ops env dry ctx oi pr i j _; rfl
  | cons m rest ih =>
    intro ops env dry ctx oi pr i j hj
    rw [applyLoop]
    by_cases hd : dry
    · rw [if_pos hd]
      simp only [countRan, List.countP_cons]
      rw [← countRan, ih ops env dry ctx oi pr (i + 1) j (by omega)]
      simp [show i ≠ j from by omega]
    · rw [if_neg hd]
      by_cases hy : ops oi = "y"
      · rw [if_pos hy]
        by_cases hz : env pr = 0
        · rw [if_pos hz]
          simp only [countRan, List.countP_cons]
          rw [← countRan, ih ops env dry ctx (oi + 1) (pr + 1) (i + 1) j (by omega)]
          simp [show i ≠ j from by omega]
        · rw [if_neg hz]
          by_cases hn : ops (oi + 1) = "n"
          · rw [if_pos hn]
            simp [countRan, List.countP_cons, show i ≠ j from by omega]
          · rw [if_neg hn]
            simp only [countRan, List.countP_cons]
            rw [← countRan, ih ops env dry ctx (oi + 2) (pr + 1) (i + 1) j (by omega)]
            simp [show i ≠ j from by omega]
      · rw [if_neg hy]
        simp only [countRan, List.countP_cons]
        rw [← countRan, ih ops env dry ctx (oi + 1) pr (i + 1) j (by omega)]
        simp [show i ≠ j from by omega]

/-- The operator oracle of the C2 counterexample: confirm execution, then
decline "Continue anyway?". -/
def opsYesThenNo : Nat → String := fun k => if k = 0 then "y" else "n"

/-- A process oracle whose every launch fails. -/
def envAllFail : Nat → Int := fun _ => 1

/-- C2 counterexample: a one-block run whose step fails.  The protocol
asks a single binary "Continue anyway?" question offering exactly the
two choices `y`/`n` — not the claimed three-way Retry/Skip/Abort — and
the failed step is launched exactly once, so no retry is possible. -/
theorem apply_failure_two_choices_counterexample :
    applyLoop opsYesThenNo envAllFail false [] 0 0 1 ["false".toList]
        = [AEvent.asked "Execute this block?" ["y", "n"] "y",
           AEvent.ranBlock 1 "false".toList,
           AEvent.asked "Continue anyway?" ["y", "n"] "n"]
      ∧ (["y", "n"] : List String).length = 2 := by
  constructor
  · decide
  · rfl

/-- C2 (amended): on a non-zero exit the operator is offered one binary
choice, "Continue anyway?" with options `y`/`n`: `"n"` stops the run
(the remaining blocks produce no events), any other answer advances to
the next block; the failed block is launched exactly once — no retry
option exists. -/
theorem apply_failure_binary_choice (ops : Nat → String) (env : Nat → Int)
    (ctx : List (Str × Str)) (oi pr i : Nat) (m : Str) (rest : List Str)
    (hy : ops oi = "y") (hf : env pr ≠ 0) :
    applyLoop ops env false ctx oi pr i (m :: rest)
        = AEvent.asked "Execute this block?" ["y", "n"] "y"
          :: AEvent.ranBlock i (substContext ctx (pyStrip m))
          :: AEvent.asked "Continue anyway?" ["y", "n"] (ops (oi + 1))
          :: (if ops (oi + 1) = "n" then []
              else applyLoop ops env false ctx (oi + 2) (pr + 1) (i + 1) rest)
      ∧ countRan i (applyLoop ops env false ctx oi pr i (m :: rest)) = 1 := by
  have heq : applyLoop ops env false ctx oi pr i (m :: rest)
      = AEvent.asked "Execute this block?" ["y", "n"] "y"
        :: AEvent.ranBlock i (substContext ctx (pyStrip m))
        :: AEvent.asked "Continue anyway?" ["y", "n"] (ops (oi + 1))
        :: (if ops (oi + 1) = "n" then []
            else applyLoop ops env false ctx (oi + 2) (pr + 1) (i + 1) rest) := by
    rw [applyLoop, if_neg (by simp), if_pos hy, if_neg hf, hy]
  refine ⟨heq, ?_⟩
  rw [heq]
  by_cases hn : ops (oi + 1) = "n"
  · rw [if_pos hn]
    simp [countRan, List.countP_cons]
  · rw [if_neg hn]
    simp only [countRan, List.countP_cons]
    rw [← countRan, countRan_lt_idx rest ops env false ctx (oi + 2) (pr + 1)
      (i + 1) i (by omega)]
    simp

/-- Witness for C2 (amended) at the concrete one-block failing run. -/
theorem apply_failure_binary_choice_witness :
    applyLoop opsYesThenNo envAllFail false [] 0 0 1 ["false".toList]
        = [AEvent.asked "Execute this block?" ["y", "n"] "y",
           AEvent.ranBlock 1 "false".toList,
           AEvent.asked "Continue anyway?" ["y", "n"] "n"]
      ∧ countRan 1 (applyLoop opsYesThenNo envAllFail false [] 0 0 1
          ["false".toList]) = 1 := by
  have h := apply_failure_binary_choice opsYesThenNo envAllFail [] 0 0 1
    "false".toList [] (by decide) (by decide)
  refine ⟨?_, h.2⟩
  rw [h.1]
  decide

/-!
## DeploymentResolver: the grade-A plan of `deploy_project`

`deploy_project` (src/jaavis_core.py lines 2025-2066): grade "A" starts
from the E2E test step, probes the lockfiles of the working directory to
pick the audit command, and appends the Kubernetes and migration steps.
-/

/-- The lockfile snapshot probed via `os.path.exists` (lines 2037-2054). -/
structure EnvProbe where
  pnpmLock : Bool
  bunLock : Bool
  yarnLock : Bool
  packageLock : Bool

/-- A deployment step: display title and shell command. -/
abbrev Step := String × String

/-- `("Generating Lockfile (Required for Audit)", "npm i --package-lock-only")` -/
def genLockStep : Step :=
  ("Generating Lockfile (Required for Audit)", "npm i --package-lock-only")

/-- The audit-command selection of lines 2036-2056: pnpm first, then bun
(which falls back to npm only when an npm lockfile exists, else skips the
audit), then yarn, then the npm default. -/
def auditChoice (p : EnvProbe) : Option String :=
  if p.pnpmLock then some "pnpm audit"
  else if p.bunLock then
    (if p.packageLock then some "npm audit" else none)
  else if p.yarnLock then some "yarn audit"
  else some "npm audit"

/-- The grade-A step list of lines 2026-2066: E2E tests, then (under the
npm default branch with no npm lockfile) the lockfile-generation step,
then the audit step when an audit command was chosen, then the
Kubernetes apply and the migration. -/
def gradeASteps (p : EnvProbe) : List Step :=
  let steps : List Step := [("Running E2E Tests", "npm run test:e2e")]
  let steps :=
    if p.pnpmLock then steps
    else if p.bunLock then steps
    else if p.yarnLock then steps
    else if ¬ p.packageLock then steps ++ [genLockStep]
    else steps
  let steps :=
    match auditChoice p with
    | some c => steps ++ [("Security Audit", c)]
    | none => steps
  steps ++ [("Applying K8s Manifests", "kubectl apply -f k8s/"),
            ("Migrating DB", "npx supabase migration up")]

/-- C4: the audit command follows the lockfile priority order
pnpm → bun (npm fallback) → yarn → npm default; with `pnpm-lock.yaml`
present the audit step is exactly `pnpm audit`, and with no lockfile at
all the plan carries the lockfile-generation step immediately before the
`npm audit` step. -/
theorem gradeA_audit_selection (p : EnvProbe) :
    (p.pnpmLock = true →
      gradeASteps p = [("Running E2E Tests", "npm run test:e2e"),
        ("Security Audit", "pnpm audit"),
        ("Applying K8s Manifests", "kubectl apply -f k8s/"),
        ("Migrating DB", "npx supabase migration up")])
    ∧ (p.pnpmLock = false → p.bunLock = true → p.packageLock = true →
      auditChoice p = some "npm audit")
    ∧ (p.pnpmLock = false → p.bunLock = false → p.yarnLock = true →
      auditChoice p = some "yarn audit")
    ∧ (p.pnpmLock = false → p.bunLock = false → p.yarnLock = false →
        p.packageLock = false →
      gradeASteps p = [("Running E2E Tests", "npm run test:e2e"),
        genLockStep,
        ("Security Audit", "npm audit"),
        ("Applying K8s Manifests", "kubectl apply -f k8s/"),
        ("Migrating DB", "npx supabase migration up")]) := by
  refine ⟨fun h1 => ?_, fun h1 h2 h3 => ?_, fun h1 h2 h3 => ?_,
    fun h1 h2 h3 h4 => ?_⟩
  · simp [gradeASteps, auditChoice, h1]
  · simp [auditChoice, h1, h2, h3]
  · simp [auditChoice, h1, h2, h3]
  · simp [gradeASteps, auditChoice, h1, h2, h3, h4, genLockStep]

/-- Witness for C4: the pnpm-lock case and the no-lockfile case at
concrete probes. -/
theorem gradeA_audit_selection_witness :
    gradeASteps ⟨true, false, false, false⟩
        = [("Running E2E Tests", "npm run test:e2e"),
           ("Security Audit", "pnpm audit"),
           ("Applying K8s Manifests", "kubectl apply -f k8s/"),
           ("Migrating DB", "npx supabase migration up")]
      ∧ gradeASteps ⟨false, false, false, false⟩
        = [("Running E2E Tests", "npm run test:e2e"),
           genLockStep,
           ("Security Audit", "npm audit"),
           ("Applying K8s Manifests", "kubectl apply -f k8s/"),
           ("Migrating DB", "npx supabase migration up")] :=
  ⟨(gradeA_audit_selection ⟨true, false, false, false⟩).1 rfl,
   (gradeA_audit_selection ⟨false, false, false, false⟩).2.2.2 rfl rfl rfl rfl⟩

/-!
## Harvesting: `save_harvested_deploy`

`save_harvested_deploy` (src/jaavis_core.py lines 2252-2275):
`safe_name = re.sub(r'[^a-zA-Z0-9_-]', '', name).lower()`, then the file
is written at `os.path.join(lib_path, "skills", "devops",
f"deploy_{safe_name}.md")`.
-/

/-- The character class kept by `re.sub(r'[^a-zA-Z0-9_-]', '', name)`,
expressed through the code points of `a`-`z` (97-122), `A`-`Z` (65-90),
`0`-`9` (48-57), `_` (95) and `-` (45). -/
def isAllowedNameChar (c : Char) : Bool :=
  (97 ≤ c.toNat && c.toNat ≤ 122) || (65 ≤ c.toNat && c.toNat ≤ 90) ||
  (48 ≤ c.toNat && c.toNat ≤ 57) || c.toNat == 95 || c.toNat == 45

/-- `safe_name`: remove every disallowed character, then lowercase
(line 2254, in the source's order: `re.sub` first, `.lower()` second;
on the surviving ASCII characters Python's `str.lower()` acts exactly as
`Char.toLower`). -/
def sanitizeName (name : Str) : Str :=
  (name.filter isAllowedNameChar).map Char.toLower

/-- `f"deploy_{safe_name}.md"` (line 2255). -/
def harvestFileName (name : Str) : Str :=
  "deploy_".toList ++ sanitizeName name ++ ".md".toList

/-- `os.path.join` for the relative components used here. -/
def joinPath (a b : Str) : Str := a ++ '/' :: b

/-- The full path written by `save_harvested_deploy` (lines 2256-2261). -/
def harvestSavePath (libPath name : Str) : Str :=
  joinPath (joinPath (joinPath libPath "skills".toList) "devops".toList)
    (harvestFileName name)

lemma toNat_ofNat_small {n : Nat} (h : n < 55296) :
    (Char.ofNat n).toNat = n := by
  rw [Char.ofNat, dif_pos (Or.inl h : Nat.isValidChar n)]
  rfl

lemma toLower_allowed {d : Char} (h : isAllowedNameChar d = true) :
    isAllowedNameChar (Char.toLower d) = true := by
  unfold Char.toLower
  by_cases hc : d.toNat ≥ 65 ∧ d.toNat ≤ 90
  · rw [if_pos hc]
    have hv : (Char.ofNat (d.toNat + 32)).toNat = d.toNat + 32 :=
      toNat_ofNat_small (by omega)
    simp only [isAllowedNameChar, hv, Bool.or_eq_true, Bool.and_eq_true,
      decide_eq_true_eq, beq_iff_eq]
    left
    left
    left
    left
    omega
  · rw [if_neg hc]
    exact h

lemma sanitizeName_allowed {name : Str} :
    ∀ c ∈ sanitizeName name, isAllowedNameChar c = true := by
  intro c hc
  simp only [sanitizeName, List.mem_map] at hc
  obtain ⟨d, hd, rfl⟩ := hc
  exact toLower_allowed (List.of_mem_filter hd)

/-- C10: the harvested strategy is written at
`<library>/skills/devops/deploy_<s>.md` where `<s>` keeps only
`[a-zA-Z0-9_-]` characters lowercased; the file name contains no path
separator and is not `..`, so no supplied name can escape the `devops`
directory. -/
theorem harvest_path_stays_in_devops (libPath name : Str) :
    harvestSavePath libPath name
        = (libPath ++ "/skills/devops/".toList) ++ harvestFileName name
      ∧ harvestFileName name
        = "deploy_".toList ++ sanitizeName name ++ ".md".toList
      ∧ '/' ∉ harvestFileName name
      ∧ '.' ∉ sanitizeName name
      ∧ harvestFileName name ≠ "..".toList := by
  refine ⟨?_, rfl, ?_, ?_, ?_⟩
  · simp [harvestSavePath, joinPath, harvestFileName]
  · intro hmem
    unfold harvestFileName at hmem
    rcases List.mem_append.mp hmem with hmem | hmem
    · rcases List.mem_append.mp hmem with hmem | hmem
      · revert hmem
        decide
      · have := sanitizeName_allowed _ hmem
        revert this
        decide
    · revert hmem
      decide
  · intro hmem
    have := sanitizeName_allowed _ hmem
    revert this
    decide
  · intro h
    have := congrArg List.length h
    simp [harvestFileName, sanitizeName] at this

/-!
## Persona management: `rename_persona`, `delete_persona`, and the lock

The per-record branching of `rename_persona` (src/jaavis_core.py lines
804-849), `delete_persona` (lines 905-932), the per-record sync branch of
`sync_all_personas` (lines 161-254) and the per-record push branch of
`push_all_personas` (lines 297-360).  Only rename and delete consult the
`locked` flag.
-/

/-- A persona library record as stored in the config
(`{ path, remote_url?, locked? }` keyed by persona name). -/
structure LibraryRecord where
  name : Str
  path : String
  remoteUrl : Option String
  locked : Bool

/-- The character class kept by `re.sub(r'[^a-z0-9_]', '', new_name)`
(line 814): `a`-`z` (97-122), `0`-`9` (48-57), `_` (95). -/
def isRenameChar (c : Char) : Bool :=
  (97 ≤ c.toNat && c.toNat ≤ 122) || (48 ≤ c.toNat && c.toNat ≤ 57) ||
  c.toNat == 95

/-- Outcome of the rename flow. -/
inductive RenameOutcome where
  | refusedLocked
  | cancelled
  | nameExists
  | renamed (newName : Str)
deriving DecidableEq, Repr

/-- `rename_persona` decision logic (lines 804-847): a locked record is
refused outright; the new name is stripped, lowercased (empty cancels),
sanitized, and rejected when already taken or reserved. -/
def renamePersona (rec : LibraryRecord) (existingNames : List Str)
    (newRaw : Str) : RenameOutcome :=
  if rec.locked then RenameOutcome.refusedLocked
  else
    let n0 := (pyStrip newRaw).map Char.toLower
    if n0 = [] then RenameOutcome.cancelled
    else
      let n1 := n0.filter isRenameChar
      if n1 ∈ existingNames ∨ n1 = "programmer".toList then
        RenameOutcome.nameExists
      else RenameOutcome.renamed n1

/-- Outcome of the delete flow. -/
inductive DeleteOutcome where
  | refusedLocked
  | deleted
  | aborted
deriving DecidableEq, Repr

/-- `delete_persona` decision logic (lines 905-932): a locked record is
refused; otherwise deletion proceeds only when the typed confirmation
matches the persona name exactly. -/
def deletePersona (rec : LibraryRecord) (confirmInput : Str) : DeleteOutcome :=
  if rec.locked then DeleteOutcome.refusedLocked
  else if pyStrip confirmInput = rec.name then DeleteOutcome.deleted
  else DeleteOutcome.aborted

/-- The filesystem/git state consulted by one sync pass. -/
structure SyncWorld where
  pathExists : Bool
  gitLinked : Bool
  pending : Nat
  env : Nat → GitRes

/-- The action taken for one record by `sync_all_personas`
(lines 168-254). -/
inductive SyncAction where
  | gitSync (issued : List (List String)) (ok : Bool)
  | offerInit
  | cloneFromRemote (url : String)
  | promptMissing

/-- The per-record branch of `sync_all_personas`: existing git-tracked
libraries run the stash/pull/pop loop, an existing non-git directory gets
the interactive init offer, a missing directory is cloned from its
stored remote or prompts for one.  The `locked` flag is never read. -/
def syncPersonaRecord (rec : LibraryRecord) (w : SyncWorld) : SyncAction :=
  if w.pathExists then
    if w.gitLinked then
      let r := sync_git_branch w.env w.pending
      SyncAction.gitSync r.1 r.2
    else SyncAction.offerInit
  else
    match rec.remoteUrl with
    | some url => SyncAction.cloneFromRemote url
    | none => SyncAction.promptMissing

/-- `["git", "add", "."]` -/
def gitAddAll : List String := ["git", "add", "."]

/-- `["git", "commit", "-m", <message>]` -/
def gitCommitMsg (msg : String) : List String := ["git", "commit", "-m", msg]

/-- `["git", "push", "origin", "main"]` -/
def gitPushMain : List String := ["git", "push", "origin", "main"]

/-- `["git", "push", "origin", "master"]` -/
def gitPushMaster : List String := ["git", "push", "origin", "master"]

/-- The add/commit/push sequence of `push_all_personas` (lines 341-357):
`git add .` (raising on failure, caught as an error), a commit whose
result is ignored, a push to `main` falling back to `master` on
rejection. -/
def runPush (env : Nat → GitRes) (msg : String) : List (List String) × Bool :=
  if (env 0).rc ≠ 0 then ([gitAddAll], false)
  else
    if (env 2).rc ≠ 0 then
      ([gitAddAll, gitCommitMsg msg, gitPushMain, gitPushMaster],
        decide ((env 3).rc = 0))
    else ([gitAddAll, gitCommitMsg msg, gitPushMain], true)

/-- The filesystem/git state consulted by one push pass. -/
structure PushWorld where
  pathExists : Bool
  gitLinked : Bool
  hasRemoteOrigin : Bool
  env : Nat → GitRes

/-- The action taken for one record by `push_all_personas`. -/
inductive PushAction where
  | skippedMissing
  | offerInit
  | offerRemotePrompt
  | pushed (issued : List (List String)) (ok : Bool)

/-- The per-record branch of `push_all_personas` (lines 297-360): a
missing path is skipped, a non-git directory gets the init offer, a
missing remote gets the add-remote prompt, otherwise the
add/commit/push sequence runs.  The `locked` flag is never read. -/
def pushPersonaRecord (_rec : LibraryRecord) (w : PushWorld) (msg : String) :
    PushAction :=
  if ¬ w.pathExists then PushAction.skippedMissing
  else if ¬ w.gitLinked then PushAction.offerInit
  else if w.hasRemoteOrigin then
    let r := runPush w.env msg
    PushAction.pushed r.1 r.2
  else PushAction.offerRemotePrompt

/-- C8: a locked record refuses rename and delete, while sync and push
treat it exactly as an unlocked record — locking governs identity
operations only. -/
theorem locked_guards_identity_ops_only (rec : LibraryRecord) :
    (rec.locked = true →
      (∀ ex newRaw, renamePersona rec ex newRaw = RenameOutcome.refusedLocked)
      ∧ (∀ ci, deletePersona rec ci = DeleteOutcome.refusedLocked))
    ∧ (∀ w : SyncWorld, syncPersonaRecord { rec with locked := true } w
        = syncPersonaRecord { rec with locked := false } w)
    ∧ (∀ (w : PushWorld) (msg : String),
        pushPersonaRecord { rec with locked := true } w msg
          = pushPersonaRecord { rec with locked := false } w msg) := by
  refine ⟨fun hl => ⟨fun ex newRaw => ?_, fun ci => ?_⟩, fun w => rfl,
    fun w msg => rfl⟩
  · unfold renamePersona
    rw [if_pos hl]
  · unfold deletePersona
    rw [if_pos hl]

/-- Witness for C8 at a concrete locked record. -/
theorem locked_guards_identity_ops_only_witness :
    renamePersona ⟨"dev".toList, "/tmp/dev", none, true⟩ [] "newname".toList
        = RenameOutcome.refusedLocked
      ∧ deletePersona ⟨"dev".toList, "/tmp/dev", none, true⟩ "dev".toList
        = DeleteOutcome.refusedLocked
      ∧ syncPersonaRecord
          ⟨"dev".toList, "/tmp/dev", none, true⟩
          ⟨true, true, 0, fun _ => ⟨0, [], []⟩⟩
        = syncPersonaRecord
          ⟨"dev".toList, "/tmp/dev", none, false⟩
          ⟨true, true, 0, fun _ => ⟨0, [], []⟩⟩ := by
  have h := locked_guards_identity_ops_only ⟨"dev".toList, "/tmp/dev", none, true⟩
  refine ⟨(h.1 rfl).1 [] "newname".toList, (h.1 rfl).2 "dev".toList, ?_⟩
  exact h.2.1 ⟨true, true, 0, fun _ => ⟨0, [], []⟩⟩

/-!
## CLI surface: process exit status

`main` (src/jaavis_core.py lines 2881-2928) dispatches `apply`, `deploy`,
`sync` and `push` to their handlers, discards every handler's return
value (all of them return `None`), and falls through to the end of the
function, so the interpreter exits with status 0; the only explicit
`sys.exit` calls (lines 2931-2934, interrupt handling) also pass 0.
Each model below pairs the handler's outcome with the process exit code
`main` produces for it.
-/

/-- The step-execution loop of the standard `deploy_project` path
(lines 2154-2159): run each step, stop at the first non-zero exit. -/
def runDeploySteps (env : Nat → Int) : Nat → List Step → List Step × Bool
  | _, [] => ([], true)
  | k, s :: rest =>
    if env k ≠ 0 then ([s], false)
    else
      let r := runDeploySteps env (k + 1) rest
      (s :: r.1, r.2)

/-- `jaavis apply <name>` (line 2922): run the skill, exit 0. -/
def mainApply (ops : Nat → String) (env : Nat → Int) (dry : Bool)
    (blocks : List Str) : List AEvent × Nat :=
  (applyLoop ops env dry [] 0 0 1 blocks, 0)

/-- `jaavis deploy` (line 2912): run the plan, exit 0. -/
def mainDeploy (env : Nat → Int) (steps : List Step) :
    (List Step × Bool) × Nat :=
  (runDeploySteps env 0 steps, 0)

/-- `jaavis sync` (line 2918): reconcile, exit 0. -/
def mainSync (env : Nat → GitRes) (pending : Nat) :
    (List (List String) × Bool) × Nat :=
  (sync_git_branch env pending, 0)

/-- `jaavis push` (line 2920): push, exit 0. -/
def mainPush (rec : LibraryRecord) (w : PushWorld) (msg : String) :
    PushAction × Nat :=
  (pushPersonaRecord rec w msg, 0)

/-- C3 counterexample: a sync whose pull fails hard — the reconciliation
reports the failure (`false`) yet the process exit status is 0,
contradicting the claim that a hard failure yields a non-zero status. -/
theorem cli_exit_zero_despite_sync_failure :
    (mainSync envPullFails 1).1.2 = false
      ∧ (mainSync envPullFails 1).2 = 0 := by
  constructor
  · decide
  · rfl

/-- C3 (amended): the `apply`, `deploy`, `sync` and `push` commands
always exit with status 0, whatever the handlers report — failures and
aborts are only printed, never reflected in the exit status. -/
theorem cli_exit_always_zero :
    (∀ (ops : Nat → String) (env : Nat → Int) (dry : Bool) (blocks : List Str),
      (mainApply ops env dry blocks).2 = 0)
    ∧ (∀ (env : Nat → Int) (steps : List Step), (mainDeploy env steps).2 = 0)
    ∧ (∀ (env : Nat → GitRes) (pending : Nat), (mainSync env pending).2 = 0)
    ∧ (∀ (rec : LibraryRecord) (w : PushWorld) (msg : String),
      (mainPush rec w msg).2 = 0) :=
  ⟨fun _ _ _ _ => rfl, fun _ _ => rfl, fun _ _ => rfl, fun _ _ _ => rfl⟩

end Jaavis
